import Mathlib

/-!
# log4go: the network log writer (`netlog.go`)

A shallow embedding of `NetLogWriter` and its methods, together with the parts
of the Go standard library that `SendToServer` calls to build the request body
(`encoding/json` string and slice encoding, `net/url` form encoding,
`unicode/utf8` rune decoding).

Go strings are byte sequences; they are modelled as lists of bytes so that
strings that are not valid UTF-8 stay representable.  A method that mutates
its receiver is modelled as a function returning the receiver's new state; the
observable steps of a call (mutex operations, cache mutations, library and
network calls) are recorded, in program order, in a trace.
-/

namespace Log4go

/-! ## Go strings -/

/-- A Go `byte`. -/
abbrev Byte := Fin 256

/-- A Go `string`: an arbitrary sequence of bytes. -/
abbrev GoString := List Byte

/-- The bytes of an ASCII string literal of the source. -/
def ascii (s : String) : GoString := s.toList.map fun c => Fin.ofNat c.toNat

/-! ## `unicode/utf8` -/

/-- The constant `utf8.RuneError` (U+FFFD). -/
def RuneError : Nat := 0xFFFD

/-- The function `utf8.DecodeRuneInString`: the first rune of `s` and its width in bytes;
`(RuneError, 0)` for the empty string and `(RuneError, 1)` for an invalid
encoding.  The table `first` and the `acceptRanges` are written as the byte
ranges they encode; the masks and shifts are written with `%` and `*`. -/
def DecodeRuneInString : GoString → Nat × Nat
  | [] => (RuneError, 0)
  | s0 :: rest =>
    if s0.val < 0x80 then (s0.val, 1)
    else if s0.val < 0xC2 ∨ 0xF4 < s0.val then (RuneError, 1)
    else
      let sz := if s0.val < 0xE0 then 2 else if s0.val < 0xF0 then 3 else 4
      let lo := if s0.val = 0xE0 then 0xA0 else if s0.val = 0xF0 then 0x90 else 0x80
      let hi := if s0.val = 0xED then 0x9F else if s0.val = 0xF4 then 0x8F else 0xBF
      if rest.length + 1 < sz then (RuneError, 1)
      else
        match rest with
        | [] => (RuneError, 1)
        | s1 :: rest1 =>
          if s1.val < lo ∨ hi < s1.val then (RuneError, 1)
          else if sz ≤ 2 then ((s0.val % 32) * 64 + s1.val % 64, 2)
          else
            match rest1 with
            | [] => (RuneError, 1)
            | s2 :: rest2 =>
              if s2.val < 0x80 ∨ 0xBF < s2.val then (RuneError, 1)
              else if sz ≤ 3 then
                ((s0.val % 16) * 4096 + (s1.val % 64) * 64 + s2.val % 64, 3)
              else
                match rest2 with
                | [] => (RuneError, 1)
                | s3 :: _ =>
                  if s3.val < 0x80 ∨ 0xBF < s3.val then (RuneError, 1)
                  else
                    ((s0.val % 8) * 262144 + (s1.val % 64) * 4096
                      + (s2.val % 64) * 64 + s3.val % 64, 4)

/-! ## `encoding/json`: encoding a `[]string` -/

/-- The table `htmlSafeSet` of `encoding/json`: the ASCII bytes that are written
to a JSON string as they are when HTML escaping is on. -/
def htmlSafeSet (b : Byte) : Bool :=
  decide (0x20 ≤ b.val) && decide (b.val < 0x80) && b != 0x22 && b != 0x26
    && b != 0x3C && b != 0x3E && b != 0x5C

/-- The digit table `hex = "0123456789abcdef"` of `encoding/json`. -/
def hex (n : Nat) : Byte := (ascii "0123456789abcdef").getD n 0

/-- The `switch b` of `appendString`: the escape written for an ASCII byte
that is not in `htmlSafeSet`. -/
def escapeASCII (b : Byte) : GoString :=
  if b = 0x5C ∨ b = 0x22 then [0x5C, b]
  else if b = 0x08 then ascii "\\b"
  else if b = 0x0C then ascii "\\f"
  else if b = 0x0A then ascii "\\n"
  else if b = 0x0D then ascii "\\r"
  else if b = 0x09 then ascii "\\t"
  else ascii "\\u00" ++ [hex (b.val / 16), hex (b.val % 16)]

/-- The loop of `appendString` (with `escapeHTML = true`, as `json.Marshal`
sets it) on the rest `src[i:]` of the string.  Every iteration advances `i` by
at least one byte, so `len(src) - i` iterations are enough; the first argument
bounds the number of iterations. -/
def appendStringLoop : Nat → GoString → GoString
  | 0, _ => []
  | _, [] => []
  | fuel + 1, b :: rest =>
    if b.val < 0x80 then
      if htmlSafeSet b then b :: appendStringLoop fuel rest
      else escapeASCII b ++ appendStringLoop fuel rest
    else
      let r := DecodeRuneInString ((b :: rest).take 4)
      if r.1 = RuneError ∧ r.2 = 1 then
        ascii "\\ufffd" ++ appendStringLoop fuel rest
      else if r.1 = 0x2028 ∨ r.1 = 0x2029 then
        ascii "\\u202" ++ hex (r.1 % 16) :: appendStringLoop fuel (rest.drop (r.2 - 1))
      else
        (b :: rest).take r.2 ++ appendStringLoop fuel (rest.drop (r.2 - 1))

/-- The function `appendString` of `encoding/json`: a string as a JSON string literal. -/
def appendString (src : GoString) : GoString :=
  0x22 :: appendStringLoop src.length src ++ [0x22]

/-- The element loop of the array encoder: the elements, separated by commas. -/
def encodeElems : List GoString → GoString
  | [] => []
  | [s] => appendString s
  | s :: t => appendString s ++ 0x2C :: encodeElems t

/-- The call `json.Marshal(&lines)` for a non-nil `lines []string`: a JSON array
of JSON strings.  It never fails for this type. -/
def Marshal (lines : List GoString) : GoString :=
  0x5B :: encodeElems lines ++ [0x5D]

/-! ## `net/url`: form encoding -/

/-- The digit table `upperhex = "0123456789ABCDEF"` of `net/url`. -/
def upperhex (n : Nat) : Byte := (ascii "0123456789ABCDEF").getD n 0

/-- The function `shouldEscape(c, encodeQueryComponent)` of `net/url`: everything
but ASCII letters, digits and `-`, `_`, `.`, `~` is escaped. -/
def shouldEscape (c : Byte) : Bool :=
  !(decide (0x61 ≤ c.val ∧ c.val ≤ 0x7A) || decide (0x41 ≤ c.val ∧ c.val ≤ 0x5A)
    || decide (0x30 ≤ c.val ∧ c.val ≤ 0x39)
    || c == 0x2D || c == 0x5F || c == 0x2E || c == 0x7E)

/-- The function `url.QueryEscape`: a space becomes `+`, an escaped byte becomes `%XX`. -/
def QueryEscape : GoString → GoString
  | [] => []
  | c :: s =>
    if c = 0x20 then 0x2B :: QueryEscape s
    else if shouldEscape c then
      0x25 :: upperhex (c.val / 16) :: upperhex (c.val % 16) :: QueryEscape s
    else c :: QueryEscape s

/-- A Go `map[string][]string` (`url.Values`, `http.Header`), as an association list. -/
abbrev Values := List (GoString × List GoString)

/-- The method `Values.Set` (and `Header.Set` for a key in canonical form):
`v[key] = []string{value}`. -/
def Values.Set : Values → GoString → GoString → Values
  | [], key, value => [(key, [value])]
  | (k, vs) :: rest, key, value =>
    if k = key then (k, [value]) :: rest else (k, vs) :: Values.Set rest key value

/-- Go's `<=` on strings: bytewise lexicographic order. -/
def strLe : GoString → GoString → Bool
  | [], _ => true
  | _ :: _, [] => false
  | a :: s, b :: t => if a.val < b.val then true else if b.val < a.val then false else strLe s t

/-- Insertion of one entry into a list of entries sorted by key. -/
def insertByKey (e : GoString × List GoString) : Values → Values
  | [] => [e]
  | f :: rest => if strLe e.1 f.1 then e :: f :: rest else f :: insertByKey e rest

/-- The entries of the map in the order of `slices.Sort(keys)`. -/
def sortByKey : Values → Values
  | [] => []
  | e :: rest => insertByKey e (sortByKey rest)

/-- The inner loop of `Values.Encode`: `key=value` for every value of one key,
each preceded by `&` when the buffer is not empty. -/
def encodeKey (keyEscaped : GoString) : List GoString → GoString → GoString
  | [], buf => buf
  | v :: vs, buf =>
    encodeKey keyEscaped vs
      ((if buf.length > 0 then buf ++ [0x26] else buf) ++ keyEscaped ++ 0x3D :: QueryEscape v)

/-- The outer loop of `Values.Encode` over the sorted keys. -/
def encodeEntries : Values → GoString → GoString
  | [], buf => buf
  | (k, vs) :: rest, buf => encodeEntries rest (encodeKey (QueryEscape k) vs buf)

/-- The method `Values.Encode`: the URL-encoded form, sorted by key. -/
def Values.Encode (v : Values) : GoString := encodeEntries (sortByKey v) []

/-! ## `net/http`, as far as `SendToServer` uses it -/

/-- A `*http.Request`: what `http.NewRequest` and `Header.Set` put into it. -/
structure Request where
  method : GoString
  url : GoString
  header : Values
  body : GoString
deriving DecidableEq

/-- A `*http.Response`: status code and body. -/
structure Response where
  status : Int
  body : GoString
deriving DecidableEq

/-- The network and URL parser, which the repository does not contain:
`urlParses u` tells whether `url.Parse(u)` succeeds, `roundTrip req` is what
`client.Do(req)` yields, `none` standing for a non-nil `err`. -/
structure Net where
  urlParses : GoString → Bool
  roundTrip : Request → Option Response

/-- The call `http.NewRequest(method, url, body)` for a valid method: `none` is the
result `(nil, err)` of a URL that does not parse. -/
def NewRequest (net : Net) (method url body : GoString) : Option Request :=
  if net.urlParses url then some { method := method, url := url, header := [], body := body }
  else none

/-! ## The writer -/

/-- The struct `NetLogWriter`.  The channels `rec` and `rot` are created by the
constructor and used by no method; the mutex `lk` appears as the `lock` and
`unlock` steps of the traces. -/
structure NetLogWriter where
  format : GoString
  sendinterval : Int
  maxcaches : Int
  appname : GoString
  serverurl : GoString
  caches : List GoString
deriving DecidableEq

/-- One step of a method call: an operation on the mutex, an assignment to or
from `w.caches`, or a call of a function outside this file.  Reading
`len(w.caches)` and `len(lines)` and building the composite literals
`url.Values{}` and `&http.Client{}` are not steps of their own. -/
inductive Event where
  | lock
  | unlock
  | formatLogRecord (format : GoString)
  | cacheAppend (line : GoString)
  | cacheCapture
  | cacheClear
  | valuesSet (key value : GoString)
  | jsonMarshal
  | valuesEncode
  | bodyReader
  | newRequest (method url body : GoString)
  | headerSet (key value : GoString)
  | clientDo (req : Request)
  | readAll
  | bodyClose
deriving DecidableEq

/-- How a call ends: it returns, or it panics. -/
inductive Outcome where
  | returned
  | panicked
deriving DecidableEq

/-- The result of running a method: the writer afterwards, the steps taken, the outcome. -/
structure Run where
  writer : NetLogWriter
  trace : List Event
  outcome : Outcome
deriving DecidableEq

/-- The method `LogWrite` (lines 42-46).  `FormatLogRecord` is defined in another file of
the package and is a parameter here, as is the record type.  Line 44 calls it
after `Lock` and before `Unlock`, to compute the argument of `append`. -/
def LogWrite {Rec : Type} (FormatLogRecord : GoString → Rec → GoString)
    (w : NetLogWriter) (rec : Rec) : Run :=
  let line := FormatLogRecord w.format rec
  { writer := { w with caches := w.caches ++ [line] }
    trace := [.lock, .formatLogRecord w.format, .cacheAppend line, .unlock]
    outcome := .returned }

/-- Lines 51-57 of `SendToServer`, between `Lock` and `Unlock`: the captured
`lines` and the writer afterwards. -/
def drainStep (w : NetLogWriter) : List GoString × NetLogWriter :=
  if w.caches.length > 0 then (w.caches, { w with caches := [] }) else ([], w)

/-- The steps taken between `Lock` and `Unlock` in `SendToServer`. -/
def drainTrace (w : NetLogWriter) : List Event :=
  if w.caches.length > 0 then [.cacheCapture, .cacheClear] else []

/-- The request body of lines 59-65: `url.Values` with `app` and `logs`, encoded. -/
def requestBody (appname : GoString) (lines : List GoString) : GoString :=
  let v : Values := []
  let v := v.Set (ascii "app") appname
  let buf := Marshal lines
  let v := v.Set (ascii "logs") buf
  v.Encode

/-- Lines 58-77 of `SendToServer`, after `Unlock`: the steps taken and the
outcome.  When `http.NewRequest` fails, `req` is nil and `req.Header.Set`
dereferences it. -/
def transmitStep (net : Net) (w : NetLogWriter) (lines : List GoString) :
    List Event × Outcome :=
  if lines.length > 0 then
    let encValues := requestBody w.appname lines
    let pre : List Event :=
      [.valuesSet (ascii "app") w.appname, .jsonMarshal,
        .valuesSet (ascii "logs") (Marshal lines), .valuesEncode, .bodyReader,
        .newRequest (ascii "POST") w.serverurl encValues]
    match NewRequest net (ascii "POST") w.serverurl encValues with
    | none => (pre, .panicked)
    | some req0 =>
      let key := ascii "Content-Type"
      let value := ascii "application/x-www-form-urlencoded"
      let req := { req0 with header := req0.header.Set key value }
      match net.roundTrip req with
      | none => (pre ++ [.headerSet key value, .clientDo req], .returned)
      | some _ =>
        (pre ++ [.headerSet key value, .clientDo req, .readAll, .bodyClose], .returned)
  else ([], .returned)

/-- The method `SendToServer` (lines 49-78). -/
def SendToServer (net : Net) (w : NetLogWriter) : Run :=
  let d := drainStep w
  let t := transmitStep net d.2 d.1
  { writer := d.2
    trace := [.lock] ++ drainTrace w ++ [.unlock] ++ t.1
    outcome := t.2 }

/-- The method `Close` (lines 81-83): an empty body. -/
def Close (w : NetLogWriter) : NetLogWriter := w

/-- The constructor `NewNetLogWriter` (lines 94-115): the writer it returns.  The goroutine it
starts calls `SendToServer` forever; those calls are steps of the schedules
below. -/
def NewNetLogWriter (app sendurl : GoString) : NetLogWriter :=
  { appname := app
    format := ascii "[%D %T] [%L] (%S) %M"
    sendinterval := 3
    maxcaches := 300
    serverurl := sendurl
    caches := [] }

/-- The method `SetFormat` (lines 119-122); the result is the receiver after the call. -/
def SetFormat (w : NetLogWriter) (format : GoString) : NetLogWriter :=
  { w with format := format }

/-- The method `SetMsgSendInterval` (lines 126-129). -/
def SetMsgSendInterval (w : NetLogWriter) (format : GoString) : NetLogWriter :=
  { w with format := format }

/-- The method `SetMaxCacheLines` (lines 133-136). -/
def SetMaxCacheLines (w : NetLogWriter) (format : GoString) : NetLogWriter :=
  { w with format := format }

/-- The method `SetAppName` (lines 140-143). -/
def SetAppName (w : NetLogWriter) (format : GoString) : NetLogWriter :=
  { w with format := format }


/-! ## Decoding: the inverse direction of the wire format -/

/-- The function `utf8.ValidString`, as the loop `for i < len(s)` over `DecodeRuneInString`:
no position decodes to `(RuneError, 1)`.  The first argument bounds the number
of iterations. -/
def validLoop : Nat → GoString → Bool
  | _, [] => true
  | 0, _ :: _ => false
  | fuel + 1, b :: rest =>
    let r := DecodeRuneInString (b :: rest)
    if r.1 = RuneError ∧ r.2 = 1 then false else validLoop fuel (rest.drop (r.2 - 1))

/-- Whether a Go string is valid UTF-8 (`utf8.ValidString`). -/
def ValidString (s : GoString) : Bool := validLoop s.length s

/-- The function `utf8.AppendRune`: the UTF-8 encoding of a rune, U+FFFD for a surrogate or a
value above U+10FFFF. -/
def AppendRune (r : Nat) : GoString :=
  if r < 0x80 then [Fin.ofNat r]
  else if r < 0x800 then [Fin.ofNat (0xC0 + r / 64), Fin.ofNat (0x80 + r % 64)]
  else if (0xD800 ≤ r ∧ r ≤ 0xDFFF) ∨ 0x10FFFF < r then [0xEF, 0xBF, 0xBD]
  else if r < 0x10000 then
    [Fin.ofNat (0xE0 + r / 4096), Fin.ofNat (0x80 + r / 64 % 64), Fin.ofNat (0x80 + r % 64)]
  else
    [Fin.ofNat (0xF0 + r / 262144), Fin.ofNat (0x80 + r / 4096 % 64),
      Fin.ofNat (0x80 + r / 64 % 64), Fin.ofNat (0x80 + r % 64)]

/-- The value of a hexadecimal digit (`unhex` of `net/url`, the digit loop of
`getu4` of `encoding/json`). -/
def unhex (c : Byte) : Option Nat :=
  if 0x30 ≤ c.val ∧ c.val ≤ 0x39 then some (c.val - 0x30)
  else if 0x61 ≤ c.val ∧ c.val ≤ 0x66 then some (c.val - 0x61 + 10)
  else if 0x41 ≤ c.val ∧ c.val ≤ 0x46 then some (c.val - 0x41 + 10)
  else none

/-- The function `getu4` of `encoding/json`: the code unit of a `\uXXXX` at the start of `s`. -/
def getu4 : GoString → Option Nat
  | b :: u :: h1 :: h2 :: h3 :: h4 :: _ =>
    if b = 0x5C ∧ u = 0x75 then
      match unhex h1, unhex h2, unhex h3, unhex h4 with
      | some a, some b, some c, some d => some (a * 4096 + b * 256 + c * 16 + d)
      | _, _, _, _ => none
    else none
  | _ => none

/-- One escape sequence of a JSON string, as `unquote` of `encoding/json`
reads it: `s` starts with the backslash; the result is the decoded bytes and
the rest of the input. -/
def unescape (s : GoString) : Option (GoString × GoString) :=
  match s with
  | _ :: e :: rest =>
    if e = 0x22 ∨ e = 0x5C ∨ e = 0x2F then some ([e], rest)
    else if e = 0x62 then some ([0x08], rest)
    else if e = 0x66 then some ([0x0C], rest)
    else if e = 0x6E then some ([0x0A], rest)
    else if e = 0x72 then some ([0x0D], rest)
    else if e = 0x74 then some ([0x09], rest)
    else if e = 0x75 then
      match getu4 s with
      | none => none
      | some rr =>
        if 0xD800 ≤ rr ∧ rr < 0xE000 then
          match getu4 (s.drop 6) with
          | some rr1 =>
            if rr < 0xDC00 ∧ 0xDC00 ≤ rr1 ∧ rr1 < 0xE000 then
              some (AppendRune ((rr - 0xD800) * 1024 + (rr1 - 0xDC00) + 0x10000), s.drop 12)
            else some (AppendRune RuneError, s.drop 6)
          | none => some (AppendRune RuneError, s.drop 6)
        else some (AppendRune rr, s.drop 6)
    else none
  | _ => none

/-- The rest of a JSON string literal after its opening quote: the decoded
string and the input after the closing quote.  A raw control character, a bad
escape or a missing closing quote is an error.  The first argument bounds the
number of iterations. -/
def parseStringBody : Nat → GoString → Option (GoString × GoString)
  | 0, _ => none
  | _, [] => none
  | fuel + 1, c :: s =>
    if c = 0x22 then some ([], s)
    else if c = 0x5C then
      match unescape (c :: s) with
      | none => none
      | some (bytes, rest) =>
        (parseStringBody fuel rest).map fun r => (bytes ++ r.1, r.2)
    else if c.val < 0x20 then none
    else (parseStringBody fuel s).map fun r => (c :: r.1, r.2)

/-- JSON whitespace is skipped between tokens. -/
def skipSpace : GoString → GoString
  | [] => []
  | c :: s => if c = 0x20 ∨ c = 0x09 ∨ c = 0x0A ∨ c = 0x0D then skipSpace s else c :: s

/-- The elements of a JSON array of strings after `[` or `,`, up to and
including the closing `]`: the decoded strings and the rest of the input. -/
def parseElems : Nat → GoString → Option (List GoString × GoString)
  | 0, _ => none
  | fuel + 1, s =>
    match skipSpace s with
    | [] => none
    | q :: s1 =>
      if q = 0x22 then
        match parseStringBody s1.length s1 with
        | none => none
        | some (str, rest) =>
          match skipSpace rest with
          | [] => none
          | d :: rest1 =>
            if d = 0x2C then (parseElems fuel rest1).map fun r => (str :: r.1, r.2)
            else if d = 0x5D then some ([str], rest1)
            else none
      else none

/-- The call `json.Unmarshal(data, &lines)` for `lines []string`, on a JSON array of
string literals; any other input is an error. -/
def Unmarshal (data : GoString) : Option (List GoString) :=
  match skipSpace data with
  | [] => none
  | o :: s =>
    if o = 0x5B then
      match skipSpace s with
      | [] => none
      | c :: s1 =>
        if c = 0x5D then (if skipSpace s1 = [] then some [] else none)
        else
          match parseElems s.length s with
          | none => none
          | some (strs, rest) => if skipSpace rest = [] then some strs else none
    else none

/-- The function `strings.Cut` for a one-byte separator: the text before the first
separator, the text after it, and whether the separator was found. -/
def cut (sep : Byte) : GoString → GoString × GoString × Bool
  | [] => ([], [], false)
  | c :: s => if c = sep then ([], s, true) else ((c :: (cut sep s).1), (cut sep s).2.1, (cut sep s).2.2)

/-- The function `url.QueryUnescape`: `+` is a space, `%XX` a byte; a `%` that is not followed
by two hexadecimal digits is an error. -/
def QueryUnescape : GoString → Option GoString
  | [] => some []
  | c :: s =>
    if c = 0x25 then
      match s with
      | h1 :: h2 :: t =>
        match unhex h1, unhex h2 with
        | some a, some b => (QueryUnescape t).map fun r => Fin.ofNat (a * 16 + b) :: r
        | _, _ => none
      | _ => none
    else if c = 0x2B then (QueryUnescape s).map fun r => 0x20 :: r
    else (QueryUnescape s).map fun r => c :: r

/-- The loop of `url.ParseQuery`: the key-value pairs of a URL-encoded form in
the order they appear; a semicolon or a bad escape is an error.  The first
argument bounds the number of iterations. -/
def parseQueryLoop : Nat → GoString → Option (List (GoString × GoString))
  | _, [] => some []
  | 0, _ :: _ => none
  | fuel + 1, query =>
    let c := cut 0x26 query
    if 0x3B ∈ c.1 then none
    else if c.1 = [] then parseQueryLoop fuel c.2.1
    else
      let kv := cut 0x3D c.1
      match QueryUnescape kv.1, QueryUnescape kv.2.1 with
      | some key, some value => (parseQueryLoop fuel c.2.1).map fun r => (key, value) :: r
      | _, _ => none

/-- The function `url.ParseQuery`, with the fields listed in order. -/
def ParseQuery (query : GoString) : Option (List (GoString × GoString)) :=
  parseQueryLoop query.length query

/-- The part of `DecodeRuneInString` after the lookup in `first`, with the
size and the accept range of the second byte as parameters. -/
def decodeTail (s0 : Byte) (sz lo hi : Nat) (rest : GoString) : Nat × Nat :=
  if rest.length + 1 < sz then (RuneError, 1)
  else
    match rest with
    | [] => (RuneError, 1)
    | s1 :: rest1 =>
      if s1.val < lo ∨ hi < s1.val then (RuneError, 1)
      else if sz ≤ 2 then ((s0.val % 32) * 64 + s1.val % 64, 2)
      else
        match rest1 with
        | [] => (RuneError, 1)
        | s2 :: rest2 =>
          if s2.val < 0x80 ∨ 0xBF < s2.val then (RuneError, 1)
          else if sz ≤ 3 then
            ((s0.val % 16) * 4096 + (s1.val % 64) * 64 + s2.val % 64, 3)
          else
            match rest2 with
            | [] => (RuneError, 1)
            | s3 :: _ =>
              if s3.val < 0x80 ∨ 0xBF < s3.val then (RuneError, 1)
              else
                ((s0.val % 8) * 262144 + (s1.val % 64) * 4096
                  + (s2.val % 64) * 64 + s3.val % 64, 4)

/-! ## Schedules and trace predicates -/

/-- One atomic step of a schedule of `LogWrite` calls and drains. -/
inductive Step (Rec : Type) where
  | logWrite (rec : Rec)
  | drain

/-- Runs a schedule: the writer and the batches drained so far, in drain order. -/
def runSteps {Rec : Type} (FormatLogRecord : GoString → Rec → GoString) :
    NetLogWriter → List (List GoString) → List (Step Rec) → NetLogWriter × List (List GoString)
  | w, batches, [] => (w, batches)
  | w, batches, .logWrite rec :: rest =>
    runSteps FormatLogRecord (LogWrite FormatLogRecord w rec).writer batches rest
  | w, batches, .drain :: rest =>
    runSteps FormatLogRecord (drainStep w).2 (batches ++ [(drainStep w).1]) rest

/-- The records of the `LogWrite` steps of a schedule, in the order they ran. -/
def loggedRecords {Rec : Type} : List (Step Rec) → List Rec
  | [] => []
  | .logWrite rec :: rest => rec :: loggedRecords rest
  | .drain :: rest => loggedRecords rest

/-- A call of a public operation of the writer, with its arguments. -/
inductive Op (Rec : Type) where
  | logWrite (rec : Rec)
  | sendToServer (net : Net)
  | close
  | setFormat (s : GoString)
  | setMsgSendInterval (s : GoString)
  | setMaxCacheLines (s : GoString)
  | setAppName (s : GoString)

/-- The writer after one call. -/
def Op.apply {Rec : Type} (FormatLogRecord : GoString → Rec → GoString)
    (w : NetLogWriter) : Op Rec → NetLogWriter
  | .logWrite rec => (LogWrite FormatLogRecord w rec).writer
  | .sendToServer net => (SendToServer net w).writer
  | .close => Close w
  | .setFormat s => SetFormat w s
  | .setMsgSendInterval s => SetMsgSendInterval w s
  | .setMaxCacheLines s => SetMaxCacheLines w s
  | .setAppName s => SetAppName w s

/-- The writer after a sequence of calls. -/
def runOps {Rec : Type} (FormatLogRecord : GoString → Rec → GoString) :
    NetLogWriter → List (Op Rec) → NetLogWriter
  | w, [] => w
  | w, op :: rest => runOps FormatLogRecord (Op.apply FormatLogRecord w op) rest

/-- The steps that mutate or read the cache. -/
def Event.isCache : Event → Bool
  | .cacheAppend _ => true
  | .cacheCapture => true
  | .cacheClear => true
  | _ => false

/-- The cache steps and the call of `FormatLogRecord`. -/
def Event.isCacheOrFormat : Event → Bool
  | .formatLogRecord _ => true
  | e => e.isCache

/-- The steps of the HTTP exchange. -/
def Event.isNetwork : Event → Bool
  | .newRequest _ _ _ => true
  | .headerSet _ _ => true
  | .clientDo _ => true
  | .readAll => true
  | .bodyClose => true
  | _ => false

/-- The requests handed to `client.Do` in a trace. -/
def sentRequests : List Event → List Request
  | [] => []
  | .clientDo req :: rest => req :: sentRequests rest
  | _ :: rest => sentRequests rest

/-- Lock discipline of a trace, `held` telling whether the mutex is held at its
start and `allowed` which steps may be taken while it is held: `Lock` only
when free, `Unlock` only when held, only allowed steps while held, no cache
step while free, and the mutex free at the end. -/
def lockDiscipline (allowed : Event → Bool) : Bool → List Event → Bool
  | held, [] => !held
  | held, .lock :: rest => !held && lockDiscipline allowed true rest
  | held, .unlock :: rest => held && lockDiscipline allowed false rest
  | held, e :: rest =>
    (if held then allowed e else !e.isCache) && lockDiscipline allowed held rest

/-- A network that refuses every connection and whose URL parser rejects the
strings that start with a colon (`url.Parse` reports a missing protocol scheme
for them). -/
def refusingNet : Net :=
  { urlParses := fun u => u.head? != some 0x3A
    roundTrip := fun _ => none }

/-- A network with the same URL parser whose server answers every request
with status 500 and an empty body. -/
def failingServerNet : Net :=
  { urlParses := fun u => u.head? != some 0x3A
    roundTrip := fun _ => some { status := 500, body := [] } }

/-- A formatter for the examples: the template followed by the record's message. -/
def sampleFormat (format : GoString) (msg : GoString) : GoString := format ++ msg

/-- A writer for the examples, with two cached lines. -/
def sampleWriter : NetLogWriter :=
  { NewNetLogWriter (ascii "svc") (ascii "http://logs.example/put") with
    caches := [ascii "a", ascii "b"] }

/-! ## Lemmas -/

theorem requestBody_eq (appname : GoString) (lines : List GoString) :
    requestBody appname lines
      = ascii "app=" ++ (QueryEscape appname ++ (ascii "&logs=" ++ QueryEscape (Marshal lines))) := by
  have h1 : QueryEscape (ascii "app") = ascii "app" := by decide
  have h2 : QueryEscape (ascii "logs") = ascii "logs" := by decide
  have h3 : (ascii "app" = ascii "logs") = False := by decide
  have h4 : strLe (ascii "app") (ascii "logs") = true := by decide
  simp only [requestBody, Values.Set, h3, if_false, Values.Encode, sortByKey, insertByKey, h4,
    if_true, encodeEntries, encodeKey, h1, h2]
  simp [ascii]
  decide

theorem drainStep_of_nil {w : NetLogWriter} (h : w.caches = []) : drainStep w = ([], w) := by
  simp [drainStep, h]

theorem drainStep_of_ne_nil {w : NetLogWriter} (h : w.caches ≠ []) :
    drainStep w = (w.caches, { w with caches := [] }) := by
  have : 0 < w.caches.length := List.length_pos.mpr h
  simp [drainStep, this]

theorem drainStep_append (w : NetLogWriter) :
    (drainStep w).1 ++ (drainStep w).2.caches = w.caches := by
  by_cases h : w.caches = []
  · simp [drainStep_of_nil h, h]
  · simp [drainStep_of_ne_nil h]

theorem drainStep_format (w : NetLogWriter) : (drainStep w).2.format = w.format := by
  by_cases h : w.caches = []
  · simp [drainStep_of_nil h]
  · simp [drainStep_of_ne_nil h]

theorem runSteps_spec {Rec : Type} (fmt : GoString → Rec → GoString) (steps : List (Step Rec)) :
    ∀ (w : NetLogWriter) (batches : List (List GoString)),
      (runSteps fmt w batches steps).2.flatten ++ (runSteps fmt w batches steps).1.caches
        = batches.flatten ++ w.caches ++ (loggedRecords steps).map (fmt w.format) := by
  induction steps with
  | nil => intro w batches; simp [runSteps, loggedRecords]
  | cons s rest ih =>
    intro w batches
    cases s with
    | logWrite rec =>
      simp only [runSteps, loggedRecords, List.map_cons]
      rw [ih]
      simp [LogWrite]
    | drain =>
      simp only [runSteps, loggedRecords]
      rw [ih, drainStep_format]
      simp only [List.flatten_append, List.flatten_cons, List.flatten_nil, List.append_nil,
        List.append_assoc]
      rw [← List.append_assoc ((drainStep w).1), drainStep_append]

theorem runOps_config {Rec : Type} (fmt : GoString → Rec → GoString) (ops : List (Op Rec)) :
    ∀ w : NetLogWriter,
      (runOps fmt w ops).appname = w.appname ∧ (runOps fmt w ops).serverurl = w.serverurl
        ∧ (runOps fmt w ops).sendinterval = w.sendinterval
        ∧ (runOps fmt w ops).maxcaches = w.maxcaches := by
  induction ops with
  | nil => intro w; simp [runOps]
  | cons op rest ih =>
    intro w
    simp only [runOps]
    obtain ⟨h1, h2, h3, h4⟩ := ih (Op.apply fmt w op)
    rw [h1, h2, h3, h4]
    cases op <;>
      simp [Op.apply, LogWrite, SendToServer, Close, SetFormat, SetMsgSendInterval,
        SetMaxCacheLines, SetAppName, drainStep]
    split <;> simp

theorem cut_append_sep (sep : Byte) (x y : GoString) (h : sep ∉ x) :
    cut sep (x ++ sep :: y) = (x, y, true) := by
  induction x with
  | nil => simp [cut]
  | cons c x ih =>
    have hc : c ≠ sep := fun e => h (by simp [e])
    have hx : sep ∉ x := fun e => h (by simp [e])
    simp [cut, hc, ih hx]

theorem cut_no_sep (sep : Byte) (x : GoString) (h : sep ∉ x) :
    cut sep x = (x, [], false) := by
  induction x with
  | nil => simp [cut]
  | cons c x ih =>
    have hc : c ≠ sep := fun e => h (by simp [e])
    have hx : sep ∉ x := fun e => h (by simp [e])
    simp [cut, hc, ih hx]

set_option maxRecDepth 100000 in
theorem queryEscape_byte (c : Byte) :
    c = 0x20
      ∨ (c ≠ 0x20 ∧ shouldEscape c = true
          ∧ unhex (upperhex (c.val / 16)) = some (c.val / 16)
          ∧ unhex (upperhex (c.val % 16)) = some (c.val % 16)
          ∧ upperhex (c.val / 16) ≠ 0x26 ∧ upperhex (c.val / 16) ≠ 0x3D
          ∧ upperhex (c.val / 16) ≠ 0x3B
          ∧ upperhex (c.val % 16) ≠ 0x26 ∧ upperhex (c.val % 16) ≠ 0x3D
          ∧ upperhex (c.val % 16) ≠ 0x3B)
      ∨ (c ≠ 0x20 ∧ shouldEscape c = false ∧ c ≠ 0x25 ∧ c ≠ 0x2B ∧ c ≠ 0x26 ∧ c ≠ 0x3D
          ∧ c ≠ 0x3B) := by
  revert c
  decide

theorem byte_div_mod (c : Byte) : (Fin.ofNat (c.val / 16 * 16 + c.val % 16) : Byte) = c := by
  apply Fin.ext
  have := c.isLt
  simp only [Fin.ofNat, Fin.val_mk]
  omega

theorem QueryEscape_no_sep (s : GoString) :
    (0x26 : Byte) ∉ QueryEscape s ∧ (0x3D : Byte) ∉ QueryEscape s
      ∧ (0x3B : Byte) ∉ QueryEscape s := by
  induction s with
  | nil => simp [QueryEscape]
  | cons c s ih =>
    obtain ⟨i1, i2, i3⟩ := ih
    rcases queryEscape_byte c with h | ⟨h0, h1, -, -, a1, a2, a3, b1, b2, b3⟩ |
      ⟨h0, h1, -, -, a1, a2, a3⟩
    · subst h
      simp [QueryEscape, i1, i2, i3]
    · simp [QueryEscape, h0, h1, i1, i2, i3, a1.symm, a2.symm, a3.symm, b1.symm, b2.symm, b3.symm]
    · simp [QueryEscape, h0, h1, i1, i2, i3, a1.symm, a2.symm, a3.symm]

theorem QueryUnescape_plain (c : Byte) (s : GoString) (h : c ≠ 0x25) :
    QueryUnescape (c :: s)
      = if c = 0x2B then (QueryUnescape s).map fun r => 0x20 :: r
        else (QueryUnescape s).map fun r => c :: r := by
  rcases s with _ | ⟨h1, _ | ⟨h2, t⟩⟩ <;> simp [QueryUnescape, h]

theorem QueryUnescape_percent (h1 h2 : Byte) (t : GoString) (a b : Nat)
    (ha : unhex h1 = some a) (hb : unhex h2 = some b) :
    QueryUnescape (0x25 :: h1 :: h2 :: t)
      = (QueryUnescape t).map fun r => Fin.ofNat (a * 16 + b) :: r := by
  rw [QueryUnescape]
  simp [ha, hb]

theorem QueryUnescape_QueryEscape (s : GoString) : QueryUnescape (QueryEscape s) = some s := by
  induction s with
  | nil => simp [QueryEscape, QueryUnescape]
  | cons c s ih =>
    rcases queryEscape_byte c with h | ⟨h0, h1, u1, u2, -⟩ | ⟨h0, h1, p1, p2, -⟩
    · subst h
      rw [QueryEscape, if_pos rfl, QueryUnescape_plain _ _ (by decide), if_pos rfl, ih]
      rfl
    · rw [QueryEscape, if_neg h0, if_pos h1, QueryUnescape_percent _ _ _ _ _ u1 u2, ih]
      simp [byte_div_mod]
    · rw [QueryEscape, if_neg h0, h1]
      simp only [Bool.false_eq_true, if_false]
      rw [QueryUnescape_plain _ _ p1, if_neg p2, ih]
      simp

theorem parseQueryLoop_succ (f : Nat) (query : GoString) (h : query ≠ []) :
    parseQueryLoop (f + 1) query
      = if 0x3B ∈ (cut 0x26 query).1 then none
        else if (cut 0x26 query).1 = [] then parseQueryLoop f (cut 0x26 query).2.1
        else
          match QueryUnescape (cut 0x3D (cut 0x26 query).1).1,
            QueryUnescape (cut 0x3D (cut 0x26 query).1).2.1 with
          | some key, some value =>
            (parseQueryLoop f (cut 0x26 query).2.1).map fun r => (key, value) :: r
          | _, _ => none := by
  cases query with
  | nil => exact absurd rfl h
  | cons b t => simp [parseQueryLoop]

theorem parseQuery_requestBody (appname : GoString) (lines : List GoString) :
    ParseQuery (requestBody appname lines)
      = some [(ascii "app", appname), (ascii "logs", Marshal lines)] := by
  obtain ⟨a1, a2, a3⟩ := QueryEscape_no_sep appname
  obtain ⟨j1, j2, j3⟩ := QueryEscape_no_sep (Marshal lines)
  have hx1 : (0x26 : Byte) ∉ ascii "app=" ++ QueryEscape appname := by
    simp [a1, ascii]; decide
  have hx3 : (0x3B : Byte) ∉ ascii "app=" ++ QueryEscape appname := by
    simp [a3, ascii]; decide
  have hy1 : (0x26 : Byte) ∉ ascii "logs=" ++ QueryEscape (Marshal lines) := by
    simp [j1, ascii]; decide
  have hy3 : (0x3B : Byte) ∉ ascii "logs=" ++ QueryEscape (Marshal lines) := by
    simp [j3, ascii]; decide
  have hk1 : (0x3D : Byte) ∉ ascii "app" := by decide
  have hk2 : (0x3D : Byte) ∉ ascii "logs" := by decide
  have c1 : cut 0x26 (requestBody appname lines)
      = (ascii "app=" ++ QueryEscape appname, ascii "logs=" ++ QueryEscape (Marshal lines), true) := by
    rw [requestBody_eq]
    have := cut_append_sep 0x26 (ascii "app=" ++ QueryEscape appname)
      (ascii "logs=" ++ QueryEscape (Marshal lines)) hx1
    simpa [ascii] using this
  have c2 : cut 0x3D (ascii "app=" ++ QueryEscape appname)
      = (ascii "app", QueryEscape appname, true) := by
    have := cut_append_sep 0x3D (ascii "app") (QueryEscape appname) hk1
    simpa [ascii] using this
  have c3 : cut 0x26 (ascii "logs=" ++ QueryEscape (Marshal lines))
      = (ascii "logs=" ++ QueryEscape (Marshal lines), [], false) := cut_no_sep _ _ hy1
  have c4 : cut 0x3D (ascii "logs=" ++ QueryEscape (Marshal lines))
      = (ascii "logs", QueryEscape (Marshal lines), true) := by
    have := cut_append_sep 0x3D (ascii "logs") (QueryEscape (Marshal lines)) hk2
    simpa [ascii] using this
  have u1 : QueryUnescape (ascii "app") = some (ascii "app") := by decide
  have u2 : QueryUnescape (ascii "logs") = some (ascii "logs") := by decide
  have n1 : ascii "app=" ++ QueryEscape appname ≠ [] := by simp [ascii]
  have n2 : ascii "logs=" ++ QueryEscape (Marshal lines) ≠ [] := by simp [ascii]
  have step2 : ∀ f, parseQueryLoop (f + 1) (ascii "logs=" ++ QueryEscape (Marshal lines))
      = some [(ascii "logs", Marshal lines)] := by
    intro f
    rw [parseQueryLoop_succ _ _ n2]
    simp only [c3, hy3, if_false, n2, c4, u2, QueryUnescape_QueryEscape]
    cases f <;> simp [parseQueryLoop]
  have hlen : ∃ f, (requestBody appname lines).length = f + 2 := by
    rw [requestBody_eq]
    refine ⟨(QueryEscape appname).length + (QueryEscape (Marshal lines)).length + 8, ?_⟩
    simp [ascii]
    omega
  obtain ⟨f, hf⟩ := hlen
  have n0 : requestBody appname lines ≠ [] := by
    intro h; rw [h] at hf; simp at hf
  rw [ParseQuery, hf, parseQueryLoop_succ _ _ n0]
  simp only [c1, hx3, if_false, n1, c2, u1, QueryUnescape_QueryEscape, step2]
  simp

theorem DecodeRuneInString_cons (s0 : Byte) (rest : GoString) :
    DecodeRuneInString (s0 :: rest)
      = if s0.val < 0x80 then (s0.val, 1)
        else if s0.val < 0xC2 ∨ 0xF4 < s0.val then (RuneError, 1)
        else
          decodeTail s0 (if s0.val < 0xE0 then 2 else if s0.val < 0xF0 then 3 else 4)
            (if s0.val = 0xE0 then 0xA0 else if s0.val = 0xF0 then 0x90 else 0x80)
            (if s0.val = 0xED then 0x9F else if s0.val = 0xF4 then 0x8F else 0xBF) rest := by
  rcases rest with _ | ⟨s1, _ | ⟨s2, _ | ⟨s3, rest⟩⟩⟩ <;> rfl

theorem decodeTail_take (s0 : Byte) (sz lo hi : Nat) (rest : GoString) (hsz : sz ≤ 4) :
    decodeTail s0 sz lo hi (rest.take 3) = decodeTail s0 sz lo hi rest := by
  rcases rest with _ | ⟨s1, _ | ⟨s2, _ | ⟨s3, rest⟩⟩⟩ <;> try rfl
  simp only [List.take_succ_cons, List.take_zero, decodeTail, List.length_cons, List.length_nil]
  split_ifs <;> first | rfl | omega

theorem DecodeRuneInString_take (s : GoString) :
    DecodeRuneInString (s.take 4) = DecodeRuneInString s := by
  rcases s with _ | ⟨s0, rest⟩
  · rfl
  · rw [List.take_succ_cons, DecodeRuneInString_cons, DecodeRuneInString_cons, decodeTail_take]
    split_ifs <;> omega

theorem decodeTail_cases (s0 : Byte) (sz lo hi : Nat) (rest : GoString)
    (h2 : 2 ≤ sz) (h4 : sz ≤ 4) :
    decodeTail s0 sz lo hi rest = (RuneError, 1)
      ∨ (∃ s1 t, rest = s1 :: t ∧ sz = 2 ∧ lo ≤ s1.val ∧ s1.val ≤ hi
          ∧ decodeTail s0 sz lo hi rest = ((s0.val % 32) * 64 + s1.val % 64, 2))
      ∨ (∃ s1 s2 t, rest = s1 :: s2 :: t ∧ sz = 3 ∧ lo ≤ s1.val ∧ s1.val ≤ hi
          ∧ 0x80 ≤ s2.val ∧ s2.val ≤ 0xBF
          ∧ decodeTail s0 sz lo hi rest
              = ((s0.val % 16) * 4096 + (s1.val % 64) * 64 + s2.val % 64, 3))
      ∨ (∃ s1 s2 s3 t, rest = s1 :: s2 :: s3 :: t ∧ sz = 4 ∧ lo ≤ s1.val ∧ s1.val ≤ hi
          ∧ 0x80 ≤ s2.val ∧ s2.val ≤ 0xBF ∧ 0x80 ≤ s3.val ∧ s3.val ≤ 0xBF
          ∧ decodeTail s0 sz lo hi rest
              = ((s0.val % 8) * 262144 + (s1.val % 64) * 4096 + (s2.val % 64) * 64
                  + s3.val % 64, 4)) := by
  rcases rest with _ | ⟨s1, rest1⟩
  · left; simp [decodeTail]
  · by_cases c1 : s1.val < lo ∨ hi < s1.val
    · left; simp [decodeTail, c1]
    · have c1a : lo ≤ s1.val := by omega
      have c1b : s1.val ≤ hi := by omega
      by_cases e2 : sz ≤ 2
      · right; left
        refine ⟨s1, rest1, rfl, by omega, c1a, c1b, ?_⟩
        have : ¬ (rest1.length + 1 + 1 < sz) := by omega
        simp [decodeTail, c1, e2, this]
      · rcases rest1 with _ | ⟨s2, rest2⟩
        · left; simp [decodeTail, c1, e2]
        · by_cases c2 : s2.val < 0x80 ∨ 0xBF < s2.val
          · left; simp [decodeTail, c1, e2, c2]
          · by_cases e3 : sz ≤ 3
            · right; right; left
              refine ⟨s1, s2, rest2, rfl, by omega, c1a, c1b, by omega, by omega, ?_⟩
              have : ¬ (rest2.length + 1 + 1 + 1 < sz) := by omega
              simp [decodeTail, c1, e2, c2, e3, this]
            · rcases rest2 with _ | ⟨s3, rest3⟩
              · left; simp [decodeTail, c1, e2, c2, e3]
              · by_cases c3 : s3.val < 0x80 ∨ 0xBF < s3.val
                · left; simp [decodeTail, c1, e2, c2, e3, c3]
                · right; right; right
                  refine ⟨s1, s2, s3, rest3, rfl, by omega, c1a, c1b, by omega, by omega,
                    by omega, by omega, ?_⟩
                  have : ¬ (rest3.length + 1 + 1 + 1 + 1 < sz) := by omega
                  simp [decodeTail, c1, e2, c2, e3, c3, this]

/-- A rune of width above one, as `appendString` sees it: the string starts
with the `width` bytes of the rune, all of them `≥ 0x80`, and the line and
paragraph separators are the encodings `AppendRune` gives them. -/
theorem DecodeRuneInString_multibyte (b : Byte) (rest : GoString) (hb : ¬ b.val < 0x80)
    (hok : ¬ ((DecodeRuneInString (b :: rest)).1 = RuneError
      ∧ (DecodeRuneInString (b :: rest)).2 = 1)) :
    ∃ pre post, b :: rest = pre ++ post
      ∧ pre.length = (DecodeRuneInString (b :: rest)).2
      ∧ 2 ≤ pre.length
      ∧ (∀ c ∈ pre, 0x80 ≤ c.val)
      ∧ ((DecodeRuneInString (b :: rest)).1 = 0x2028
          ∨ (DecodeRuneInString (b :: rest)).1 = 0x2029
          → pre = AppendRune (DecodeRuneInString (b :: rest)).1) := by
  have hlt := b.isLt
  rw [DecodeRuneInString_cons, if_neg hb] at hok ⊢
  by_cases hr : b.val < 0xC2 ∨ 0xF4 < b.val
  · rw [if_pos hr] at hok
    exact absurd ⟨rfl, rfl⟩ hok
  · rw [if_neg hr] at hok ⊢
    generalize hsz : (if b.val < 0xE0 then 2 else if b.val < 0xF0 then 3 else 4) = sz at hok ⊢
    generalize hlo : (if b.val = 0xE0 then 0xA0 else if b.val = 0xF0 then 0x90 else 0x80) = lo
      at hok ⊢
    generalize hhi : (if b.val = 0xED then 0x9F else if b.val = 0xF4 then 0x8F else 0xBF) = hi
      at hok ⊢
    have s2 : 2 ≤ sz := by rw [← hsz]; split_ifs <;> omega
    have s4 : sz ≤ 4 := by rw [← hsz]; split_ifs <;> omega
    have l80 : 0x80 ≤ lo := by rw [← hlo]; split_ifs <;> omega
    have hBF : hi ≤ 0xBF := by rw [← hhi]; split_ifs <;> omega
    rcases decodeTail_cases b sz lo hi rest s2 s4 with h | ⟨s1, t, rfl, e, a1, a2, h⟩ |
      ⟨s1, s2', t, rfl, e, a1, a2, a3, a4, h⟩ | ⟨s1, s2', s3, t, rfl, e, a1, a2, a3, a4, a5, a6, h⟩
    · rw [h] at hok
      exact absurd ⟨rfl, rfl⟩ hok
    · rw [h]
      refine ⟨[b, s1], t, rfl, rfl, by simp, ?_, ?_⟩
      · intro c hc
        simp only [List.mem_cons, List.mem_singleton, List.not_mem_nil, or_false] at hc
        rcases hc with rfl | rfl <;> omega
      · intro hv
        have h1 := s1.isLt
        simp only at hv
        omega
    · rw [h]
      refine ⟨[b, s1, s2'], t, rfl, rfl, by simp, ?_, ?_⟩
      · intro c hc
        simp only [List.mem_cons, List.mem_singleton, List.not_mem_nil, or_false] at hc
        rcases hc with rfl | rfl | rfl <;> omega
      · intro hv
        simp only at hv
        have hb3 : 0xE0 ≤ b.val ∧ b.val < 0xF0 := by
          rw [← hsz] at e; split_ifs at e <;> omega
        rcases hv with hv | hv
        · have eb : b = 0xE2 := Fin.ext (by show b.val = 0xE2; omega)
          have e1 : s1 = 0x80 := Fin.ext (by show s1.val = 0x80; omega)
          have e2 : s2' = 0xA8 := Fin.ext (by show s2'.val = 0xA8; omega)
          rw [hv, eb, e1, e2]
          decide
        · have eb : b = 0xE2 := Fin.ext (by show b.val = 0xE2; omega)
          have e1 : s1 = 0x80 := Fin.ext (by show s1.val = 0x80; omega)
          have e2 : s2' = 0xA9 := Fin.ext (by show s2'.val = 0xA9; omega)
          rw [hv, eb, e1, e2]
          decide
    · rw [h]
      refine ⟨[b, s1, s2', s3], t, rfl, rfl, by simp, ?_, ?_⟩
      · intro c hc
        simp only [List.mem_cons, List.mem_singleton, List.not_mem_nil, or_false] at hc
        rcases hc with rfl | rfl | rfl | rfl <;> omega
      · intro hv
        simp only at hv
        have hb4 : 0xF0 ≤ b.val := by
          rw [← hsz] at e; split_ifs at e <;> omega
        have hl : b.val = 0xF0 → 0x90 ≤ lo := by
          intro hb0; rw [← hlo]; split_ifs <;> omega
        omega

theorem parseStringBody_plain (f : Nat) (c : Byte) (s : GoString)
    (h1 : c ≠ 0x22) (h2 : c ≠ 0x5C) (h3 : ¬ c.val < 0x20) :
    parseStringBody (f + 1) (c :: s)
      = (parseStringBody f s).map fun r => (c :: r.1, r.2) := by
  simp [parseStringBody, h1, h2, h3]

theorem parseStringBody_copy (pre : GoString) (hpre : ∀ c ∈ pre, 0x80 ≤ c.val) (f : Nat)
    (s : GoString) :
    parseStringBody (f + pre.length) (pre ++ s)
      = (parseStringBody f s).map fun r => (pre ++ r.1, r.2) := by
  induction pre with
  | nil => simp
  | cons c pre ih =>
    have hc : 0x80 ≤ c.val := hpre c (by simp)
    have h1 : c ≠ 0x22 := by intro h; rw [h] at hc; exact absurd hc (by decide)
    have h2 : c ≠ 0x5C := by intro h; rw [h] at hc; exact absurd hc (by decide)
    have h3 : ¬ c.val < 0x20 := by omega
    have := parseStringBody_plain (f + pre.length) c (pre ++ s) h1 h2 h3
    rw [List.length_cons, ← Nat.add_assoc, List.cons_append, this,
      ih (fun c hc => hpre c (by simp [hc]))]
    cases parseStringBody f s <;> simp

theorem parseStringBody_escape (f : Nat) (s bytes rest : GoString)
    (hu : unescape (0x5C :: s) = some (bytes, rest)) :
    parseStringBody (f + 1) (0x5C :: s)
      = (parseStringBody f rest).map fun r => (bytes ++ r.1, r.2) := by
  have h1 : ((0x5C : Byte) = 0x22) = False := by decide
  simp only [parseStringBody, h1, if_false, if_true, hu]

set_option maxRecDepth 100000 in
theorem htmlSafeSet_byte (b : Byte) :
    htmlSafeSet b = true → b ≠ 0x22 ∧ b ≠ 0x5C ∧ ¬ b.val < 0x20 := by
  revert b
  decide

set_option maxRecDepth 100000 in
theorem escapeASCII_byte (b : Byte) :
    b.val < 0x80 → htmlSafeSet b = false →
      (escapeASCII b = [0x5C, b] ∧ (b = 0x22 ∨ b = 0x5C))
        ∨ (escapeASCII b = [0x5C, 0x62] ∧ b = 0x08)
        ∨ (escapeASCII b = [0x5C, 0x66] ∧ b = 0x0C)
        ∨ (escapeASCII b = [0x5C, 0x6E] ∧ b = 0x0A)
        ∨ (escapeASCII b = [0x5C, 0x72] ∧ b = 0x0D)
        ∨ (escapeASCII b = [0x5C, 0x74] ∧ b = 0x09)
        ∨ (escapeASCII b = [0x5C, 0x75, 0x30, 0x30, hex (b.val / 16), hex (b.val % 16)]
            ∧ unhex (hex (b.val / 16)) = some (b.val / 16)
            ∧ unhex (hex (b.val % 16)) = some (b.val % 16)) := by
  revert b
  decide

theorem unescape_escapeASCII (b : Byte) (h1 : b.val < 0x80) (h2 : htmlSafeSet b = false)
    (s : GoString) : unescape (escapeASCII b ++ s) = some ([b], s) := by
  rcases escapeASCII_byte b h1 h2 with ⟨e, rfl | rfl⟩ | ⟨e, rfl⟩ | ⟨e, rfl⟩ | ⟨e, rfl⟩ |
    ⟨e, rfl⟩ | ⟨e, rfl⟩ | ⟨e, u1, u2⟩
  all_goals rw [e]
  any_goals rfl
  have u0 : unhex 0x30 = some 0 := by decide
  have hb : (Fin.ofNat (b.val / 16 * 16 + b.val % 16) : Byte) = b := byte_div_mod b
  have hlt : ¬ (0xD800 ≤ b.val / 16 * 16 + b.val % 16) := by omega
  have hlt2 : b.val / 16 * 16 + b.val % 16 < 0x80 := by omega
  simp [unescape, getu4, u0, u1, u2, AppendRune, hlt, hlt2, hb]


theorem parseStringBody_escapeASCII (f : Nat) (b : Byte) (h1 : b.val < 0x80)
    (h2 : htmlSafeSet b = false) (s : GoString) :
    parseStringBody (f + 1) (escapeASCII b ++ s)
      = (parseStringBody f s).map fun r => (b :: r.1, r.2) := by
  have hu := unescape_escapeASCII b h1 h2 s
  obtain ⟨tl, htl⟩ : ∃ tl, escapeASCII b = 0x5C :: tl := by
    rcases escapeASCII_byte b h1 h2 with ⟨e, -⟩ | ⟨e, -⟩ | ⟨e, -⟩ | ⟨e, -⟩ | ⟨e, -⟩ | ⟨e, -⟩ |
      ⟨e, -⟩ <;> exact ⟨_, e⟩
  rw [htl, List.cons_append] at hu ⊢
  rw [parseStringBody_escape f _ _ _ hu]
  rfl

theorem escapeASCII_length_pos (b : Byte) : 0 < (escapeASCII b).length := by
  unfold escapeASCII
  split_ifs <;> simp [ascii]

theorem parseStringBody_separator (f : Nat) (r : Nat) (hr : r = 0x2028 ∨ r = 0x2029)
    (s : GoString) :
    parseStringBody (f + 1) (ascii "\\u202" ++ hex (r % 16) :: s)
      = (parseStringBody f s).map fun p => (AppendRune r ++ p.1, p.2) := by
  rcases hr with rfl | rfl
  · exact parseStringBody_escape f _ _ _ rfl
  · exact parseStringBody_escape f _ _ _ rfl

theorem appendStringLoop_succ (n : Nat) (b : Byte) (t : GoString) :
    appendStringLoop (n + 1) (b :: t)
      = if b.val < 0x80 then
          if htmlSafeSet b then b :: appendStringLoop n t
          else escapeASCII b ++ appendStringLoop n t
        else if (DecodeRuneInString (b :: t)).1 = RuneError
            ∧ (DecodeRuneInString (b :: t)).2 = 1 then
          ascii "\\ufffd" ++ appendStringLoop n t
        else if (DecodeRuneInString (b :: t)).1 = 0x2028
            ∨ (DecodeRuneInString (b :: t)).1 = 0x2029 then
          ascii "\\u202" ++ hex ((DecodeRuneInString (b :: t)).1 % 16)
            :: appendStringLoop n (t.drop ((DecodeRuneInString (b :: t)).2 - 1))
        else
          (b :: t).take (DecodeRuneInString (b :: t)).2
            ++ appendStringLoop n (t.drop ((DecodeRuneInString (b :: t)).2 - 1)) := by
  rw [appendStringLoop, DecodeRuneInString_take]

theorem validLoop_succ (n : Nat) (b : Byte) (t : GoString) :
    validLoop (n + 1) (b :: t)
      = if (DecodeRuneInString (b :: t)).1 = RuneError
            ∧ (DecodeRuneInString (b :: t)).2 = 1 then false
        else validLoop n (t.drop ((DecodeRuneInString (b :: t)).2 - 1)) := by
  rw [validLoop]

/-- Reading back what `appendString` wrote for a valid UTF-8 string gives the
string and stops after the closing quote. -/
theorem parseStringBody_appendStringLoop (n : Nat) :
    ∀ s : GoString, s.length ≤ n → validLoop n s = true →
      ∀ (f : Nat) (rest : GoString), (appendStringLoop n s).length < f →
        parseStringBody f (appendStringLoop n s ++ 0x22 :: rest) = some (s, rest) := by
  induction n with
  | zero =>
    intro s hl _ f rest hf
    have hs : s = [] := List.length_eq_zero.mp (Nat.le_zero.mp hl)
    subst hs
    obtain ⟨f, rfl⟩ : ∃ g, f = g + 1 := ⟨f - 1, by omega⟩
    simp [appendStringLoop, parseStringBody]
  | succ n ih =>
    intro s hl hv f rest hf
    rcases s with _ | ⟨b, t⟩
    · obtain ⟨f, rfl⟩ : ∃ g, f = g + 1 := ⟨f - 1, by omega⟩
      simp [appendStringLoop, parseStringBody]
    · have hlt : t.length ≤ n := by simpa using hl
      rw [validLoop_succ] at hv
      rw [appendStringLoop_succ] at hf ⊢
      by_cases hb : b.val < 0x80
      · have hd : DecodeRuneInString (b :: t) = (b.val, 1) := by
          rw [DecodeRuneInString_cons, if_pos hb]
        have hne : ¬ b.val = RuneError := by
          intro h; rw [RuneError] at h; omega
        rw [hd] at hv
        simp only [hne, false_and, if_false, Nat.sub_self, List.drop_zero] at hv
        rw [if_pos hb] at hf ⊢
        obtain ⟨f, rfl⟩ : ∃ g, f = g + 1 := ⟨f - 1, by omega⟩
        cases hs : htmlSafeSet b
        · simp only [hs, Bool.false_eq_true, if_false] at hf ⊢
          have hpos := escapeASCII_length_pos b
          rw [List.append_assoc, parseStringBody_escapeASCII f b hb hs,
            ih t hlt hv f rest (by simp at hf; omega)]
          rfl
        · simp only [hs, if_true] at hf ⊢
          obtain ⟨p1, p2, p3⟩ := htmlSafeSet_byte b hs
          rw [List.cons_append, parseStringBody_plain f b _ p1 p2 p3,
            ih t hlt hv f rest (by simp at hf; omega)]
          rfl
      · by_cases hok : (DecodeRuneInString (b :: t)).1 = RuneError
            ∧ (DecodeRuneInString (b :: t)).2 = 1
        · rw [if_pos hok] at hv
          exact absurd hv (by simp)
        · rw [if_neg hok] at hv
          obtain ⟨pre, post, hsplit, hlen, h2, hge, hsep⟩ :=
            DecodeRuneInString_multibyte b t hb hok
          have htake : (b :: t).take (DecodeRuneInString (b :: t)).2 = pre := by
            rw [← hlen, hsplit, List.take_left' rfl]
          have hdrop : t.drop ((DecodeRuneInString (b :: t)).2 - 1) = post := by
            have : (b :: t).drop (DecodeRuneInString (b :: t)).2 = post := by
              rw [← hlen, hsplit, List.drop_left' rfl]
            rw [← this]
            obtain ⟨k, hk⟩ : ∃ k, (DecodeRuneInString (b :: t)).2 = k + 1 :=
              ⟨(DecodeRuneInString (b :: t)).2 - 1, by omega⟩
            rw [hk]
            simp
          have hpost : post.length ≤ n := by
            have := congrArg List.length hsplit
            simp at this
            omega
          rw [hdrop] at hv
          rw [if_neg hb, if_neg hok, htake, hdrop] at hf ⊢
          by_cases hs : (DecodeRuneInString (b :: t)).1 = 0x2028
              ∨ (DecodeRuneInString (b :: t)).1 = 0x2029
          · rw [if_pos hs] at hf ⊢
            obtain ⟨f, rfl⟩ : ∃ g, f = g + 1 := ⟨f - 1, by omega⟩
            rw [List.append_assoc, List.cons_append, parseStringBody_separator f _ hs,
              ih post hpost hv f rest (by simp [ascii] at hf; omega), ← hsep hs, hsplit]
            rfl
          · rw [if_neg hs] at hf ⊢
            obtain ⟨f, rfl⟩ : ∃ g, f = g + pre.length :=
              ⟨f - pre.length, by simp at hf; omega⟩
            rw [List.append_assoc, parseStringBody_copy pre hge,
              ih post hpost hv f rest (by simp at hf; omega), hsplit]
            rfl


theorem parseStringBody_appendString (s rest : GoString) (hv : ValidString s = true) :
    parseStringBody (appendStringLoop s.length s ++ 0x22 :: rest).length
        (appendStringLoop s.length s ++ 0x22 :: rest)
      = some (s, rest) :=
  parseStringBody_appendStringLoop s.length s (Nat.le_refl _) hv _ rest (by simp)

theorem encodeElems_cons_cons (s s' : GoString) (t : List GoString) :
    encodeElems (s :: s' :: t) = appendString s ++ 0x2C :: encodeElems (s' :: t) := by
  simp [encodeElems]

theorem length_le_encodeElems (lines : List GoString) :
    lines.length ≤ (encodeElems lines).length := by
  induction lines with
  | nil => simp
  | cons s t ih =>
    rcases t with _ | ⟨s', t⟩
    · simp [encodeElems, appendString]
    · rw [encodeElems_cons_cons]
      simp only [List.length_cons, List.length_append] at ih ⊢
      omega

theorem parseElems_string (f : Nat) (s after : GoString) (hv : ValidString s = true) :
    parseElems (f + 1) (appendString s ++ after)
      = match skipSpace after with
        | [] => none
        | d :: rest1 =>
          if d = 0x2C then (parseElems f rest1).map fun r => (s :: r.1, r.2)
          else if d = 0x5D then some ([s], rest1)
          else none := by
  have h := parseStringBody_appendString s after hv
  have e : appendString s ++ after = 0x22 :: (appendStringLoop s.length s ++ 0x22 :: after) := by
    simp [appendString]
  rw [e, parseElems]
  have hs : skipSpace (0x22 :: (appendStringLoop s.length s ++ 0x22 :: after))
      = 0x22 :: (appendStringLoop s.length s ++ 0x22 :: after) := by
    rw [skipSpace, if_neg (by decide)]
  rw [hs]
  simp only [if_true, h]

theorem parseElems_encodeElems (lines : List GoString) :
    lines ≠ [] → (∀ l ∈ lines, ValidString l = true) →
      ∀ (f : Nat) (rest : GoString), lines.length ≤ f →
        parseElems f (encodeElems lines ++ 0x5D :: rest) = some (lines, rest) := by
  induction lines with
  | nil => intro h; exact absurd rfl h
  | cons s t ih =>
    intro _ hv f rest hf
    obtain ⟨f, rfl⟩ : ∃ g, f = g + 1 := ⟨f - 1, by simp at hf; omega⟩
    have hs : ValidString s = true := hv s (by simp)
    rcases t with _ | ⟨s', t⟩
    · have e : encodeElems [s] = appendString s := by rw [encodeElems]
      rw [e, parseElems_string f s _ hs, skipSpace, if_neg (by decide)]
      simp only [if_true]
      rw [if_neg (by decide)]
    · rw [encodeElems_cons_cons, List.append_assoc, List.cons_append,
        parseElems_string f s _ hs, skipSpace, if_neg (by decide)]
      simp only [if_true]
      rw [ih (by simp) (fun l hl => hv l (by simp [hl])) f rest (by simp at hf ⊢; omega)]
      rfl

/-- Decoding the JSON that `json.Marshal` wrote for a non-empty list of valid
UTF-8 strings gives the list back. -/
theorem Unmarshal_Marshal (lines : List GoString) (hne : lines ≠ [])
    (hv : ∀ l ∈ lines, ValidString l = true) : Unmarshal (Marshal lines) = some lines := by
  have hp := parseElems_encodeElems lines hne hv (encodeElems lines ++ [0x5D]).length []
    (by have := length_le_encodeElems lines; simp; omega)
  obtain ⟨tl, htl⟩ : ∃ tl, encodeElems lines = 0x22 :: tl := by
    rcases lines with _ | ⟨s, _ | ⟨s', t⟩⟩
    · exact absurd rfl hne
    · exact ⟨_, by rw [encodeElems]; rfl⟩
    · exact ⟨_, by rw [encodeElems_cons_cons]; rfl⟩
  have hs1 : skipSpace (Marshal lines) = 0x5B :: (encodeElems lines ++ [0x5D]) := by
    rw [Marshal, List.cons_append, skipSpace, if_neg (by decide)]
  have hs2 : skipSpace (encodeElems lines ++ [0x5D]) = 0x22 :: (tl ++ [0x5D]) := by
    rw [htl, List.cons_append, skipSpace, if_neg (by decide)]
  simp only [Unmarshal, hs1, if_true, hs2, hp]
  rw [if_neg (by decide)]
  rfl

/-! ## The claims -/

/-- C1: from a freshly built writer, after any finite schedule of atomic
`LogWrite` steps and drain steps, the drained batches concatenated in drain
order, followed by the lines still cached, are exactly the formatted lines of
the logged records in the order the `LogWrite` steps ran: nothing is lost,
duplicated or reordered, and no line is in two batches. -/
theorem C1_schedule_accounts_for_every_line {Rec : Type}
    (FormatLogRecord : GoString → Rec → GoString) (app sendurl : GoString)
    (steps : List (Step Rec)) :
    (runSteps FormatLogRecord (NewNetLogWriter app sendurl) [] steps).2.flatten
        ++ (runSteps FormatLogRecord (NewNetLogWriter app sendurl) [] steps).1.caches
      = (loggedRecords steps).map (FormatLogRecord (NewNetLogWriter app sendurl).format) := by
  rw [runSteps_spec]
  simp [NewNetLogWriter]

/-- C2: the drain step of `SendToServer`: on an empty cache the captured batch
is empty and the writer is unchanged; otherwise the batch is the previous
cache, the cache becomes empty and every other field is unchanged.  The writer
`SendToServer` leaves is the one the drain step leaves. -/
theorem C2_drain_step (net : Net) (w : NetLogWriter) :
    (w.caches = [] → drainStep w = ([], w))
      ∧ (w.caches ≠ [] →
          (drainStep w).1 = w.caches
            ∧ (drainStep w).2.caches = []
            ∧ (drainStep w).2.format = w.format
            ∧ (drainStep w).2.sendinterval = w.sendinterval
            ∧ (drainStep w).2.maxcaches = w.maxcaches
            ∧ (drainStep w).2.appname = w.appname
            ∧ (drainStep w).2.serverurl = w.serverurl)
      ∧ (SendToServer net w).writer = (drainStep w).2 := by
  refine ⟨drainStep_of_nil, fun h => ?_, rfl⟩
  simp [drainStep_of_ne_nil h]

/-- C2, at a writer with an empty cache and at one with two cached lines. -/
theorem C2_drain_step_witness :
    drainStep (NewNetLogWriter (ascii "svc") (ascii "http://h/")) =
        ([], NewNetLogWriter (ascii "svc") (ascii "http://h/"))
      ∧ (drainStep sampleWriter).1 = [ascii "a", ascii "b"]
      ∧ (drainStep sampleWriter).2.caches = [] :=
  ⟨(C2_drain_step refusingNet (NewNetLogWriter (ascii "svc") (ascii "http://h/"))).1 rfl,
   ((C2_drain_step refusingNet sampleWriter).2.1 (by decide)).1,
   ((C2_drain_step refusingNet sampleWriter).2.1 (by decide)).2.1⟩

/-- C3: `LogWrite` adds exactly the formatted line at the tail of the cache,
whatever the cache length (also at or above `maxcaches`); it changes no other
field, takes no step besides locking, formatting, appending and unlocking, and
returns. -/
theorem C3_LogWrite_appends {Rec : Type} (FormatLogRecord : GoString → Rec → GoString)
    (w : NetLogWriter) (rec : Rec) :
    (LogWrite FormatLogRecord w rec).writer.caches = w.caches ++ [FormatLogRecord w.format rec]
      ∧ (LogWrite FormatLogRecord w rec).writer.caches.length = w.caches.length + 1
      ∧ (LogWrite FormatLogRecord w rec).writer.format = w.format
      ∧ (LogWrite FormatLogRecord w rec).writer.sendinterval = w.sendinterval
      ∧ (LogWrite FormatLogRecord w rec).writer.maxcaches = w.maxcaches
      ∧ (LogWrite FormatLogRecord w rec).writer.appname = w.appname
      ∧ (LogWrite FormatLogRecord w rec).writer.serverurl = w.serverurl
      ∧ (LogWrite FormatLogRecord w rec).trace
          = [.lock, .formatLogRecord w.format, .cacheAppend (FormatLogRecord w.format rec),
              .unlock]
      ∧ (LogWrite FormatLogRecord w rec).outcome = .returned := by
  simp [LogWrite]

/-- C4, as stated, fails on a line that is not valid UTF-8: for the one-byte
line `0xFF` the `logs` field of the request body is the JSON text
`["\ufffd"]`, whose decoding is the three-byte encoding of U+FFFD and not the
line; the line `0xFE` gives the very same body. -/
theorem C4_invalid_utf8_is_replaced :
    ParseQuery (requestBody (ascii "svc") [[0xFF]])
        = some [(ascii "app", ascii "svc"), (ascii "logs", ascii "[\"\\ufffd\"]")]
      ∧ Unmarshal (ascii "[\"\\ufffd\"]") = some [[0xEF, 0xBF, 0xBD]]
      ∧ Unmarshal (Marshal [[0xFF]]) ≠ some [[0xFF]]
      ∧ requestBody (ascii "svc") [[0xFF]] = requestBody (ascii "svc") [[0xFE]] := by
  decide

/-- C4, amended: for every app name and every non-empty list of lines that are
valid UTF-8, the request body decodes as a URL-encoded form to exactly the two
fields `app`, equal to the app name byte for byte, and `logs`, a JSON array
whose decoding is the original list of lines in the original order. -/
theorem C4_body_round_trip (appname : GoString) (lines : List GoString) (hne : lines ≠ [])
    (hvalid : ∀ l ∈ lines, ValidString l = true) :
    ParseQuery (requestBody appname lines)
        = some [(ascii "app", appname), (ascii "logs", Marshal lines)]
      ∧ Unmarshal (Marshal lines) = some lines :=
  ⟨parseQuery_requestBody appname lines, Unmarshal_Marshal lines hne hvalid⟩

/-- C4, amended, at the lines `a`, `b` and the app name `svc`. -/
theorem C4_body_round_trip_witness :
    ParseQuery (requestBody (ascii "svc") [ascii "a", ascii "b"])
        = some [(ascii "app", ascii "svc"), (ascii "logs", Marshal [ascii "a", ascii "b"])]
      ∧ Unmarshal (Marshal [ascii "a", ascii "b"]) = some [ascii "a", ascii "b"] :=
  C4_body_round_trip (ascii "svc") [ascii "a", ascii "b"] (by decide) (by decide)

/-- C5: with one cached line and a server URL that does not parse,
`http.NewRequest` yields a nil request and `SendToServer` panics at
`req.Header.Set` instead of returning. -/
theorem C5_nil_request_panics :
    NewRequest refusingNet (ascii "POST") (ascii ":") (requestBody (ascii "svc") [ascii "x"]) = none
      ∧ (SendToServer refusingNet
          { NewNetLogWriter (ascii "svc") (ascii ":") with caches := [ascii "x"] }).outcome
        = .panicked := by
  decide

/-- C6: with a non-empty cache and a server URL that parses, whatever
`client.Do` yields, `SendToServer` returns, leaves the cache empty and every
other field unchanged, and a following `LogWrite` appends its line to the
cache. -/
theorem C6_transport_result_ignored {Rec : Type} (FormatLogRecord : GoString → Rec → GoString)
    (net : Net) (w : NetLogWriter) (rec : Rec)
    (hcache : w.caches ≠ []) (hurl : net.urlParses w.serverurl = true) :
    (SendToServer net w).outcome = .returned
      ∧ (SendToServer net w).writer = { w with caches := [] }
      ∧ (LogWrite FormatLogRecord (SendToServer net w).writer rec).writer.caches
          = [FormatLogRecord w.format rec]
      ∧ (LogWrite FormatLogRecord (SendToServer net w).writer rec).outcome = .returned := by
  have hd := drainStep_of_ne_nil hcache
  have hlen : 0 < w.caches.length := List.length_pos.mpr hcache
  refine ⟨?_, ?_, ?_, ?_⟩
  · simp only [SendToServer, hd, transmitStep, hlen, if_true, NewRequest, hurl]
    cases net.roundTrip _ <;> rfl
  · simp [SendToServer, hd]
  · simp [SendToServer, hd, LogWrite]
  · simp [LogWrite]

/-- C6, at a refused connection and at a server that answers 500. -/
theorem C6_transport_result_ignored_witness :
    ((SendToServer refusingNet sampleWriter).outcome = .returned
        ∧ (SendToServer refusingNet sampleWriter).writer = { sampleWriter with caches := [] })
      ∧ ((SendToServer failingServerNet sampleWriter).outcome = .returned
        ∧ (SendToServer failingServerNet sampleWriter).writer = { sampleWriter with caches := [] }) :=
  ⟨⟨(C6_transport_result_ignored sampleFormat refusingNet sampleWriter [] (by decide)
        (by decide)).1,
    (C6_transport_result_ignored sampleFormat refusingNet sampleWriter [] (by decide)
        (by decide)).2.1⟩,
   ⟨(C6_transport_result_ignored sampleFormat failingServerNet sampleWriter [] (by decide)
        (by decide)).1,
    (C6_transport_result_ignored sampleFormat failingServerNet sampleWriter [] (by decide)
        (by decide)).2.1⟩⟩

/-- C7: on an empty cache `SendToServer` only locks and unlocks (no body, no
request) and leaves the writer unchanged; on a non-empty cache with a server
URL that parses it hands exactly one request to `client.Do`: a POST to
`w.serverurl` whose only header is `Content-Type:
application/x-www-form-urlencoded` and whose body is the encoded batch. -/
theorem C7_one_post_or_none (net : Net) (w : NetLogWriter) :
    (w.caches = [] →
        SendToServer net w = { writer := w, trace := [.lock, .unlock], outcome := .returned })
      ∧ (w.caches ≠ [] → net.urlParses w.serverurl = true →
          sentRequests (SendToServer net w).trace
            = [{ method := ascii "POST"
                 url := w.serverurl
                 header := [(ascii "Content-Type", [ascii "application/x-www-form-urlencoded"])]
                 body := requestBody w.appname w.caches }]) := by
  constructor
  · intro h
    simp [SendToServer, drainStep, drainTrace, transmitStep, h]
  · intro hcache hurl
    have hd := drainStep_of_ne_nil hcache
    have hlen : 0 < w.caches.length := List.length_pos.mpr hcache
    simp only [SendToServer, hd, transmitStep, hlen, if_true, NewRequest, hurl, drainTrace,
      Values.Set]
    cases net.roundTrip _ <;> simp [sentRequests]

/-- C7, at a fresh writer and at a writer with two cached lines. -/
theorem C7_one_post_or_none_witness :
    SendToServer refusingNet (NewNetLogWriter (ascii "svc") (ascii "http://h/"))
        = { writer := NewNetLogWriter (ascii "svc") (ascii "http://h/")
            trace := [.lock, .unlock]
            outcome := .returned }
      ∧ sentRequests (SendToServer failingServerNet sampleWriter).trace
          = [{ method := ascii "POST"
               url := sampleWriter.serverurl
               header := [(ascii "Content-Type", [ascii "application/x-www-form-urlencoded"])]
               body := requestBody sampleWriter.appname sampleWriter.caches }] :=
  ⟨(C7_one_post_or_none refusingNet (NewNetLogWriter (ascii "svc") (ascii "http://h/"))).1 rfl,
   (C7_one_post_or_none failingServerNet sampleWriter).2 (by decide) (by decide)⟩

/-- C8: `SetAppName` on a writer built with app name `svc` leaves `appname` at
`svc` and overwrites the format template with its argument. -/
theorem C8_SetAppName_sets_format :
    (SetAppName (NewNetLogWriter (ascii "svc") (ascii "http://h/")) (ascii "other")).appname
        = ascii "svc"
      ∧ (SetAppName (NewNetLogWriter (ascii "svc") (ascii "http://h/")) (ascii "other")).format
        = ascii "other" := by
  decide

/-- C9, as stated, fails for `LogWrite`: the call of `FormatLogRecord` is a
step between `Lock` and `Unlock`, so the mutex is held around more than the
cache append, and the discipline that allows cache steps only is violated. -/
theorem C9_format_call_under_lock :
    (LogWrite sampleFormat sampleWriter (ascii "m")).trace
        = [.lock, .formatLogRecord sampleWriter.format,
            .cacheAppend (sampleFormat sampleWriter.format (ascii "m")), .unlock]
      ∧ lockDiscipline Event.isCache false
          (LogWrite sampleFormat sampleWriter (ascii "m")).trace = false := by
  decide

/-- C9, amended: in every execution of `LogWrite` and of `SendToServer` the
mutex is taken only when free and released before the call ends on every path;
while it is held, `LogWrite` takes only the call of `FormatLogRecord` and the
cache append, and `SendToServer` only the cache capture and clear; none of
these is a step of the HTTP exchange, and body building, `http.NewRequest`,
`client.Do` and reading the response are taken while the mutex is free. -/
theorem C9_lock_scope {Rec : Type} (FormatLogRecord : GoString → Rec → GoString)
    (net : Net) (w : NetLogWriter) (rec : Rec) (e : Event) :
    lockDiscipline Event.isCacheOrFormat false (LogWrite FormatLogRecord w rec).trace = true
      ∧ lockDiscipline Event.isCache false (SendToServer net w).trace = true
      ∧ (e.isCacheOrFormat && e.isNetwork) = false := by
  refine ⟨?_, ?_, ?_⟩
  · simp [LogWrite, lockDiscipline, Event.isCache, Event.isCacheOrFormat]
  · simp only [SendToServer, transmitStep, drainStep, drainTrace, NewRequest]
    by_cases h : 0 < w.caches.length
    · simp only [h, if_true]
      cases net.urlParses w.serverurl
      · simp [lockDiscipline, Event.isCache]
      · simp only [if_true]
        cases net.roundTrip _ <;> simp [lockDiscipline, Event.isCache]
    · simp [h, lockDiscipline]
  · cases e <;> rfl

/-- C10: every writer reached from `NewNetLogWriter(app, url)` by public
operations has `appname = app`, `serverurl = url`, `sendinterval = 3` and
`maxcaches = 300`; each of the four setters changes the field `format` only,
and `SetMsgSendInterval`, `SetMaxCacheLines` and `SetAppName` act exactly as
`SetFormat` does. -/
theorem C10_configuration_is_fixed {Rec : Type} (FormatLogRecord : GoString → Rec → GoString)
    (app sendurl : GoString) (ops : List (Op Rec)) (w : NetLogWriter) (s : GoString) :
    ((runOps FormatLogRecord (NewNetLogWriter app sendurl) ops).appname = app
        ∧ (runOps FormatLogRecord (NewNetLogWriter app sendurl) ops).serverurl = sendurl
        ∧ (runOps FormatLogRecord (NewNetLogWriter app sendurl) ops).sendinterval = 3
        ∧ (runOps FormatLogRecord (NewNetLogWriter app sendurl) ops).maxcaches = 300)
      ∧ SetFormat w s = { w with format := s }
      ∧ SetMsgSendInterval w s = SetFormat w s
      ∧ SetMaxCacheLines w s = SetFormat w s
      ∧ SetAppName w s = SetFormat w s := by
  refine ⟨?_, rfl, rfl, rfl, rfl⟩
  simpa [NewNetLogWriter] using
    runOps_config FormatLogRecord ops (NewNetLogWriter app sendurl)

end Log4go
